import Mathlib

/-!
Verification development for the ZapDrop chunked file-transfer protocol.

The definitions below are shallow embeddings of the TypeScript source:
  - src/utils/memoryOptimizedProcessor.ts   (Streaming Chunker)
  - src/components/FileUploader.tsx         (Sender Protocol, sendFileInChunks)
  - src/components/ResponsiveLayout.tsx     (Receiver Protocol, downloadFile /
    completeFileDownload / handleFileChunk)
  - the TransferSessionManager              (resumeTransfer)

Files are byte sequences, modelled as lists of naturals below 256.  The
browser's crypto.subtle.digest with algorithm SHA-256 is modelled by a full
executable SHA-256 over byte lists, with 32-bit words carried as naturals
reduced modulo 2 to the 32.
-/

namespace ZapDrop

/-! ## SHA-256 over byte lists -/

/-- Truncation to a 32-bit word, modelling 32-bit machine arithmetic. -/
def w32 (n : Nat) : Nat := n % 4294967296

/-- Right rotation of a 32-bit word by k bits. -/
def rotr (k n : Nat) : Nat := w32 ((n >>> k) ||| (n <<< (32 - k)))

/-- Big sigma-0 of the SHA-256 compression function. -/
def bsig0 (x : Nat) : Nat := (rotr 2 x) ^^^ (rotr 13 x) ^^^ (rotr 22 x)

/-- Big sigma-1 of the SHA-256 compression function. -/
def bsig1 (x : Nat) : Nat := (rotr 6 x) ^^^ (rotr 11 x) ^^^ (rotr 25 x)

/-- Small sigma-0 of the SHA-256 message schedule. -/
def ssig0 (x : Nat) : Nat := (rotr 7 x) ^^^ (rotr 18 x) ^^^ (x >>> 3)

/-- Small sigma-1 of the SHA-256 message schedule. -/
def ssig1 (x : Nat) : Nat := (rotr 17 x) ^^^ (rotr 19 x) ^^^ (x >>> 10)

/-- The SHA-256 choice function. -/
def chf (x y z : Nat) : Nat := (x &&& y) ^^^ ((x ^^^ 4294967295) &&& z)

/-- The SHA-256 majority function. -/
def majf (x y z : Nat) : Nat := (x &&& y) ^^^ (x &&& z) ^^^ (y &&& z)

/-- The SHA-256 working state: eight 32-bit words. -/
structure Hash8 where
  a : Nat
  b : Nat
  c : Nat
  d : Nat
  e : Nat
  f : Nat
  g : Nat
  hh : Nat
deriving DecidableEq, Repr

/-- The SHA-256 initial hash value, eight words in decimal. -/
def sha256Init : Hash8 :=
  ⟨1779033703, 3144134277, 1013904242, 2773480762,
   1359893119, 2600822924, 528734635, 1541459225⟩

/-- The 64 SHA-256 round constants, in decimal. -/
def sha256K : List Nat :=
  [1116352408, 1899447441, 3049323471, 3921009573, 961987163, 1508970993,
   2453635748, 2870763221, 3624381080, 310598401, 607225278, 1426881987,
   1925078388, 2162078206, 2614888103, 3248222580, 3835390401, 4022224774,
   264347078, 604807628, 770255983, 1249150122, 1555081692, 1996064986,
   2554220882, 2821834349, 2952996808, 3210313671, 3336571891, 3584528711,
   113926993, 338241895, 666307205, 773529912, 1294757372, 1396182291,
   1695183700, 1986661051, 2177026350, 2456956037, 2730485921, 2820302411,
   3259730800, 3345764771, 3516065817, 3600352804, 4094571909, 275423344,
   430227734, 506948616, 659060556, 883997877, 958139571, 1322822218,
   1537002063, 1747873779, 1955562222, 2024104815, 2227730452, 2361852424,
   2428436474, 2756734187, 3204031479, 3329325298]

/-- One round of the SHA-256 compression function; kw is the sum of the
round constant and the schedule word. -/
def sha256Round (st : Hash8) (kw : Nat) : Hash8 :=
  let t1 := w32 (st.hh + bsig1 st.e + chf st.e st.f st.g + kw)
  let t2 := w32 (bsig0 st.a + majf st.a st.b st.c)
  ⟨w32 (t1 + t2), st.a, st.b, st.c, w32 (st.d + t1), st.e, st.f, st.g⟩

/-- Group a byte list into big-endian 32-bit words. -/
def toWords : List Nat → List Nat
  | b0 :: b1 :: b2 :: b3 :: rest =>
      (b0 * 16777216 + b1 * 65536 + b2 * 256 + b3) :: toWords rest
  | _ => []

/-- Append one schedule word computed from the last sixteen. -/
def schedStep (ws : List Nat) : List Nat :=
  let n := ws.length
  ws ++ [w32 (ssig1 (ws.getD (n - 2) 0) + ws.getD (n - 7) 0 +
              ssig0 (ws.getD (n - 15) 0) + ws.getD (n - 16) 0)]

/-- Extend the sixteen block words to the full 64-word schedule. -/
def schedule (ws : List Nat) : List Nat :=
  (List.range 48).foldl (fun acc _ => schedStep acc) ws

/-- Compress one 64-byte block into the running state. -/
def sha256Compress (st : Hash8) (block : List Nat) : Hash8 :=
  let ws := schedule (toWords block)
  let t := (ws.zip sha256K).foldl (fun s wk => sha256Round s (w32 (wk.1 + wk.2))) st
  ⟨w32 (st.a + t.a), w32 (st.b + t.b), w32 (st.c + t.c), w32 (st.d + t.d),
   w32 (st.e + t.e), w32 (st.f + t.f), w32 (st.g + t.g), w32 (st.hh + t.hh)⟩

/-- The k low-order bytes of a natural, big-endian. -/
def beBytes : Nat → Nat → List Nat
  | 0, _ => []
  | k + 1, n => beBytes k (n / 256) ++ [n % 256]

/-- SHA-256 padding: a 0x80 byte, zeros to 56 mod 64, then the bit length
as eight big-endian bytes. -/
def padMessage (ms : List Nat) : List Nat :=
  let L := ms.length
  let k := (120 - (L + 1) % 64) % 64
  ms ++ [128] ++ List.replicate k 0 ++ beBytes 8 (8 * L)

/-- Split a byte list into n blocks of 64 bytes. -/
def toBlocksN : Nat → List Nat → List (List Nat)
  | 0, _ => []
  | n + 1, l => l.take 64 :: toBlocksN n (l.drop 64)

/-- Split a byte list into 64-byte blocks.  Padded SHA-256 messages have
length a multiple of 64, so the block count is the length divided by 64. -/
def toBlocks (l : List Nat) : List (List Nat) :=
  toBlocksN (l.length / 64) l

/-- Serialize the final state as 32 big-endian bytes. -/
def hashBytes (st : Hash8) : List Nat :=
  beBytes 4 st.a ++ beBytes 4 st.b ++ beBytes 4 st.c ++ beBytes 4 st.d ++
  beBytes 4 st.e ++ beBytes 4 st.f ++ beBytes 4 st.g ++ beBytes 4 st.hh

/-- SHA-256 of a byte list, as a list of 32 bytes.  This models
crypto.subtle.digest with algorithm SHA-256. -/
def sha256 (ms : List Nat) : List Nat :=
  hashBytes ((toBlocks (padMessage ms)).foldl sha256Compress sha256Init)

/-- Lower-case hexadecimal digit for a value below 16. -/
def hexDigit (n : Nat) : Char :=
  if n < 10 then Char.ofNat (48 + n) else Char.ofNat (87 + n)

/-- Two lower-case hex digits of a byte, as produced by
toString(16).padStart(2, zero) in the source. -/
def byteToHex (b : Nat) : String :=
  String.mk [hexDigit (b / 16), hexDigit (b % 16)]

/-- Hex string of a byte list, as produced by the map-and-join idiom the
source uses on every digest. -/
def bytesToHex (bs : List Nat) : String :=
  String.join (bs.map byteToHex)

/-! ## Streaming Chunker: src/utils/memoryOptimizedProcessor.ts -/

/-- Ceiling division on naturals, modelling Math.ceil of a quotient of a
nonnegative number by a positive one. -/
def ceilDiv (a b : Nat) : Nat := (a + b - 1) / b

/-- MemoryOptimizedFileProcessor.getOptimalChunkSize: the adaptive
chunk-size policy. -/
def getOptimalChunkSize (fileSize : Nat) : Nat :=
  if fileSize < 10 * 1024 * 1024 then
    256 * 1024
  else if fileSize < 100 * 1024 * 1024 then
    512 * 1024
  else if fileSize < 1024 * 1024 * 1024 then
    1024 * 1024
  else if fileSize < 10 * 1024 * 1024 * 1024 then
    2 * 1024 * 1024
  else
    4 * 1024 * 1024

/-- JavaScript file.slice(s, e) followed by reading the bytes: the
contiguous byte range from s inclusive to e exclusive. -/
def sliceBytes (file : List Nat) (s e : Nat) : List Nat :=
  (file.drop s).take (e - s)

/-- MemoryOptimizedFileProcessor.readFileChunk: the chunk at chunkIndex
for the given chunkSize, sliced from start to min of start plus chunkSize
and the file size. -/
def readFileChunk (file : List Nat) (chunkIndex chunkSize : Nat) : List Nat :=
  let start := chunkIndex * chunkSize
  let e := min (start + chunkSize) file.length
  sliceBytes file start e

/-- The chunk buffers handed to the onChunkProcessed callback by the loop
of processFileStream, in index order; each iteration slices from
chunkIndex times chunkSize to min of that plus chunkSize and the size. -/
def processedChunks (file : List Nat) (chunkSize : Nat) : List (List Nat) :=
  (List.range (ceilDiv file.length chunkSize)).map (fun chunkIndex =>
    sliceBytes file (chunkIndex * chunkSize)
      (min (chunkIndex * chunkSize + chunkSize) file.length))

/-- Recursive reformulation of the chunk slicing used to reason about the
round trip: n chunks of size c taken from the front of the list. -/
def chunksRecAux (c : Nat) : Nat → List Nat → List (List Nat)
  | 0, _ => []
  | n + 1, l => l.take c :: chunksRecAux c n (l.drop c)

/-- Uint8Array.prototype.set: overwrite src.length bytes of dst starting
at offset off. -/
def writeAt (dst : List Nat) (off : Nat) (src : List Nat) : List Nat :=
  dst.take off ++ src ++ dst.drop (off + src.length)

/-- The forEach loop of processFileStream writing each 32-byte chunk hash
into the combined buffer at offset index times 32. -/
def setHashes : List Nat → Nat → List (List Nat) → List Nat
  | buf, _, [] => buf
  | buf, i, h :: hs => setHashes (writeAt buf (i * 32) h) (i + 1) hs

/-- The combinedHashBuffer of processFileStream: a zero buffer of
32 times the chunk count, overwritten with the chunk hashes in order. -/
def combinedHashBuffer (hashes : List (List Nat)) : List Nat :=
  setHashes (List.replicate (hashes.length * 32) 0) 0 hashes

/-- The result record of processFileStream. -/
structure FileStreamResult where
  fileHash : String
  totalChunks : Nat
  fileSize : Nat
deriving DecidableEq, Repr

/-- MemoryOptimizedFileProcessor.processFileStream: computes totalChunks
as the ceiling of size over chunkSize, hashes each chunk slice with
SHA-256, packs the chunk digests into the combined buffer, and returns
the hex SHA-256 of that buffer as the file hash. -/
def processFileStream (file : List Nat) (chunkSize : Nat) : FileStreamResult :=
  let totalChunks := ceilDiv file.length chunkSize
  let combinedHashes := (List.range totalChunks).map (fun chunkIndex =>
    sha256 (sliceBytes file (chunkIndex * chunkSize)
      (min (chunkIndex * chunkSize + chunkSize) file.length)))
  { fileHash := bytesToHex (sha256 (combinedHashBuffer combinedHashes))
    totalChunks := totalChunks
    fileSize := file.length }

/-! ## Wire messages, section 6 of the design -/

/-- The wire messages exchanged over the peer data connection, with the
fields the protocol code reads. -/
inductive WireMsg where
  | requestFile (fileName : String)
  | fileStart (fileName : String) (fileSize : Nat) (fileType : String)
      (totalChunks : Nat) (fileHash : String)
  | fileChunk (fileName : String) (chunkIndex : Nat) (totalChunks : Nat)
      (data : List Nat) (isLast : Bool)
  | chunkAck (fileName : String) (chunkIndex : Nat)
  | fileComplete (fileName : String) (verified : Bool) (fileSize : Nat)
      (fileHash : String)
  | fileError (fileName : String) (error : String)
  | transferError (fileName : String) (error : String)
deriving DecidableEq, Repr

/-- The fileName field carried by every wire message. -/
def msgFileName : WireMsg → String
  | .requestFile n => n
  | .fileStart n _ _ _ _ => n
  | .fileChunk n _ _ _ _ => n
  | .chunkAck n _ => n
  | .fileComplete n _ _ _ => n
  | .fileError n _ => n
  | .transferError n _ => n

/-! ## Sender Protocol: sendFileInChunks in src/components/FileUploader.tsx

The sender slices the file with a fixed CHUNK_SIZE of 256 KiB, digests the
whole buffer up front, sends file-start, then sends one file-chunk at a
time, blocking on a matching chunk-ack with a 5 second timeout.  Real time
is abstracted into an oracle: ack i is true when the chunk-ack for index i
arrives within its 5 second window, and finalCompleteArrives is true when
the verified file-complete arrives within its 10 second window. -/

/-- The fixed CHUNK_SIZE constant of sendFileInChunks. -/
def senderChunkSize : Nat := 256 * 1024

/-- The per-chunk acknowledgment timeout of sendFileInChunks, in
milliseconds. -/
def chunkAckTimeoutMs : Nat := 5000

/-- The final-confirmation timeout of sendFileInChunks, in milliseconds. -/
def finalConfirmTimeoutMs : Nat := 10000

/-- The error reported when a transfer fails. -/
inductive SendErr where
  | chunkTimeout (chunkIndex : Nat)
  | finalTimeout
deriving DecidableEq, Repr

/-- The result of one sendFileInChunks call: the messages sent to the
peer in order, and the local outcome (the thrown error, if any). -/
structure SendOutcome where
  msgs : List WireMsg
  result : Except SendErr Unit
deriving Repr

/-- The chunk-sending loop of sendFileInChunks, from index i with the
given fuel (the caller passes fuel equal to totalChunks so the loop runs
for i below totalChunks).  Each iteration slices the chunk, sends the
file-chunk message, then blocks for the ack: when the ack oracle is false
for the index, the loop stops and reports the timed-out index. -/
def sendChunksLoop (fileName : String) (file : List Nat) (total : Nat)
    (ack : Nat → Bool) : Nat → Nat → List WireMsg × Option Nat
  | 0, _ => ([], none)
  | fuel + 1, i =>
      let start := i * senderChunkSize
      let e := min (start + senderChunkSize) file.length
      let data := sliceBytes file start e
      let msg := WireMsg.fileChunk fileName i total data (decide (i = total - 1))
      if ack i then
        let r := sendChunksLoop fileName file total ack fuel (i + 1)
        (msg :: r.1, r.2)
      else
        ([msg], some i)

/-- The messages sent after the chunk loop: on a chunk timeout or a
missing final confirmation the catch block sends transfer-error, and a
confirmed run adds nothing. -/
def sendTailMsgs (fileName : String) (chunkMsgs : List WireMsg)
    (timedOut : Option Nat) (finalCompleteArrives : Bool) : List WireMsg :=
  match timedOut with
  | some i =>
      chunkMsgs ++ [WireMsg.transferError fileName
        ("Transfer failed: Chunk " ++ toString i ++ " acknowledgment timeout")]
  | none =>
      if finalCompleteArrives then chunkMsgs
      else chunkMsgs ++ [WireMsg.transferError fileName
        "Transfer failed: Final confirmation timeout"]

/-- The local outcome after the chunk loop: the rethrown chunk-timeout
error, the final-confirmation timeout, or success. -/
def sendTailResult (timedOut : Option Nat) (finalCompleteArrives : Bool) :
    Except SendErr Unit :=
  match timedOut with
  | some i => Except.error (SendErr.chunkTimeout i)
  | none =>
      if finalCompleteArrives then Except.ok ()
      else Except.error SendErr.finalTimeout

/-- sendFileInChunks: whole-buffer SHA-256 fingerprint, file-start, the
ack-gated chunk loop, then the wait for the verified file-complete.  On
any failure a transfer-error message is sent to the peer and the error is
rethrown to the local caller. -/
def sendFileInChunks (fileName fileType : String) (file : List Nat)
    (ack : Nat → Bool) (finalCompleteArrives : Bool) : SendOutcome :=
  let totalChunks := ceilDiv file.length senderChunkSize
  let fileHash := bytesToHex (sha256 file)
  let startMsg := WireMsg.fileStart fileName file.length fileType totalChunks fileHash
  let sent := sendChunksLoop fileName file totalChunks ack totalChunks 0
  { msgs := startMsg :: sendTailMsgs fileName sent.1 sent.2 finalCompleteArrives
    result := sendTailResult sent.2 finalCompleteArrives }

/-- The number of file-chunk messages in a message list. -/
def countChunkMsgs (msgs : List WireMsg) : Nat :=
  (msgs.filter (fun m => match m with | .fileChunk _ _ _ _ _ => true | _ => false)).length

/-! ## Receiver Protocol: src/components/ResponsiveLayout.tsx

downloadFile installs a per-download handler closure into the single
global currentDownloadHandler slot; handleFileChunk forwards every
inbound message to whatever handler currently occupies the slot. -/

/-- The reassembly state captured by one downloadFile closure. -/
structure ActiveDownload where
  fileName : String
  totalChunks : Nat
  expectedFileSize : Nat
  expectedFileHash : String
  mimeType : String
  fileChunks : List (Nat × List Nat)
  receivedChunks : Nat
deriving DecidableEq, Repr

/-- The single global currentDownloadHandler slot: at most one active
download closure. -/
abbrev ReceiverState : Type := Option ActiveDownload

/-- JavaScript object index assignment on the reassembly map: stores data
at index i, overwriting any previous entry. -/
def assocSet (m : List (Nat × List Nat)) (i : Nat) (d : List Nat) :
    List (Nat × List Nat) :=
  (i, d) :: m.filter (fun p => decide (p.1 ≠ i))

/-- downloadFile: allocates fresh reassembly state for the named file,
overwrites the global handler slot with it, and sends request-file. -/
def downloadFile (st : ReceiverState) (fileName : String) :
    ReceiverState × List WireMsg :=
  let _ := st
  (some { fileName := fileName, totalChunks := 0, expectedFileSize := 0,
          expectedFileHash := "", mimeType := "", fileChunks := [],
          receivedChunks := 0 },
   [WireMsg.requestFile fileName])

/-- The outcome of completeFileDownload. -/
inductive CompleteOutcome where
  | missingChunks (idxs : List Nat)
  | corruptedChunks (idxs : List Nat)
  | sizeMismatch (expected got : Nat)
  | blobSizeMismatch (expected got : Nat)
  | integrityMismatch (expected got : String)
  | verifiedComplete (fileSize : Nat) (fileHash : String)
deriving DecidableEq, Repr

/-- Decimal list of indices joined with a comma, as produced by
Array.prototype.join in the error messages. -/
def joinIdx (idxs : List Nat) : String :=
  String.intercalate ", " (idxs.map toString)

/-- completeFileDownload: verification and reassembly.  A chunk index is
missing when the map holds nothing for it, corrupted when it holds an
empty buffer; totalSize accumulates the lengths of stored chunks exactly
as the verification loop does.  The checks run in source order: missing,
corrupted, size against expectedFileSize, blob size (recorded locally but
not sent to the sender), then the SHA-256 integrity comparison; success
sends file-complete with verified true. -/
def completeFileDownload (fileName : String) (chunks : Nat → Option (List Nat))
    (totalChunks expectedFileSize : Nat) (expectedFileHash : String) :
    CompleteOutcome × List WireMsg :=
  let missing := (List.range totalChunks).filter (fun i => (chunks i).isNone)
  let corrupted := (List.range totalChunks).filter
    (fun i => match chunks i with | some c => c.isEmpty | none => false)
  let totalSize := ((List.range totalChunks).map
    (fun i => ((chunks i).getD []).length)).sum
  if missing.length > 0 then
    (CompleteOutcome.missingChunks missing,
     [WireMsg.fileError fileName ("Missing chunks: " ++ joinIdx missing)])
  else if corrupted.length > 0 then
    (CompleteOutcome.corruptedChunks corrupted,
     [WireMsg.fileError fileName ("Corrupted chunks: " ++ joinIdx corrupted)])
  else
    let assembled := ((List.range totalChunks).map (fun i => (chunks i).getD [])).flatten
    if totalSize ≠ expectedFileSize then
      (CompleteOutcome.sizeMismatch expectedFileSize totalSize,
       [WireMsg.fileError fileName ("File size mismatch: expected " ++
         toString expectedFileSize ++ ", got " ++ toString totalSize)])
    else if assembled.length ≠ expectedFileSize then
      (CompleteOutcome.blobSizeMismatch expectedFileSize assembled.length, [])
    else
      let receivedHash := bytesToHex (sha256 assembled)
      if receivedHash ≠ expectedFileHash then
        (CompleteOutcome.integrityMismatch expectedFileHash receivedHash,
         [WireMsg.fileError fileName
           "File integrity verification failed - corrupted during transfer"])
      else
        (CompleteOutcome.verifiedComplete assembled.length receivedHash,
         [WireMsg.fileComplete fileName true assembled.length receivedHash])

/-- handleFileChunk: forwards an inbound message to the handler in the
global slot.  The handler closure processes the message only when its
fileName matches the download it was created for; a non-empty chunk is
stored and acknowledged, then completion runs when isLast is set or all
chunks are in. -/
def handleFileChunk (st : ReceiverState) (msg : WireMsg) :
    ReceiverState × List WireMsg :=
  match st with
  | none => (none, [])
  | some ctx =>
    if msgFileName msg = ctx.fileName then
      match msg with
      | WireMsg.fileStart _ fileSize fileType totalChunks fileHash =>
          (some { ctx with totalChunks := totalChunks,
                           expectedFileSize := fileSize,
                           expectedFileHash := fileHash,
                           mimeType := fileType }, [])
      | WireMsg.fileChunk _ chunkIndex _ data isLast =>
          if data.isEmpty then (some ctx, [])
          else
            let ctx' := { ctx with
              fileChunks := assocSet ctx.fileChunks chunkIndex data,
              receivedChunks := ctx.receivedChunks + 1 }
            let ackMsg := WireMsg.chunkAck ctx.fileName chunkIndex
            if isLast || decide (ctx'.receivedChunks = ctx'.totalChunks) then
              let r := completeFileDownload ctx.fileName
                (fun i => ctx'.fileChunks.lookup i) ctx'.totalChunks
                ctx'.expectedFileSize ctx'.expectedFileHash
              (some ctx', ackMsg :: r.2)
            else
              (some ctx', [ackMsg])
      | _ => (some ctx, [])
    else
      (some ctx, [])

/-! ## Session Manager: TransferSessionManager.resumeTransfer

The chunk store is abstracted as a lookup from chunk index to stored
bytes, and the per-chunk send-then-await-ack of transferChunk as an
oracle ackOk giving whether the large-file-chunk-ack for that index
arrives successfully within its window. -/

/-- The persisted transfer session record. -/
structure FileTransferSession where
  fileId : String
  fileName : String
  fileSize : Nat
  fileType : String
  totalChunks : Nat
  completedChunks : List Nat
  fileHash : String
  isComplete : Bool
deriving DecidableEq, Repr

/-- Observable events of one resumeTransfer run: a chunk sent over the
connection, or a session snapshot persisted to storage. -/
inductive ResumeEvent where
  | sendChunk (chunkIndex : Nat) (data : List Nat)
  | saveSession (s : FileTransferSession)
deriving DecidableEq, Repr

/-- The remaining-chunk computation of resumeTransfer: all indices below
totalChunks that are not in the completed set, in increasing order. -/
def remainingChunks (s : FileTransferSession) : List Nat :=
  (List.range s.totalChunks).filter (fun i => !s.completedChunks.elem i)

/-- The transfer loop of resumeTransfer over a list of remaining indices:
fetch the chunk from the store (failing when absent), send it, block on
its ack, then append the index to completedChunks and persist; when the
list is exhausted the session is marked complete and persisted. -/
def resumeLoop (store : Nat → Option (List Nat)) (ackOk : Nat → Bool) :
    FileTransferSession → List Nat →
    List ResumeEvent × FileTransferSession × Except String Unit
  | s, [] =>
      let s' := { s with isComplete := true }
      ([ResumeEvent.saveSession s'], s', Except.ok ())
  | s, i :: rest =>
      match store i with
      | none => ([], s, Except.error "Chunk data not available - file may need to be reprocessed")
      | some d =>
          if ackOk i then
            let s' := { s with completedChunks := s.completedChunks ++ [i] }
            let r := resumeLoop store ackOk s' rest
            (ResumeEvent.sendChunk i d :: ResumeEvent.saveSession s' :: r.1, r.2)
          else
            ([ResumeEvent.sendChunk i d], s, Except.error ("Chunk " ++ toString i ++ " send timeout"))

/-- resumeTransfer: computes the remaining indices and runs the transfer
loop over them. -/
def resumeTransfer (s : FileTransferSession) (store : Nat → Option (List Nat))
    (ackOk : Nat → Bool) :
    List ResumeEvent × FileTransferSession × Except String Unit :=
  resumeLoop store ackOk s (remainingChunks s)

/-- The chunk indices sent during a run, in order. -/
def sentIndices (evs : List ResumeEvent) : List Nat :=
  evs.filterMap (fun e => match e with
    | ResumeEvent.sendChunk i _ => some i
    | _ => none)

/-- The session snapshots persisted during a run, in order. -/
def savedSessions (evs : List ResumeEvent) : List FileTransferSession :=
  evs.filterMap (fun e => match e with
    | ResumeEvent.saveSession s => some s
    | _ => none)

/-- The snapshots an all-success resumption is expected to persist: one
per remaining index, each appending that index to completedChunks, then
the final snapshot marked complete. -/
def sessionTrace : FileTransferSession → List Nat → List FileTransferSession
  | s, [] => [{ s with isComplete := true }]
  | s, a :: rest =>
      let s' := { s with completedChunks := s.completedChunks ++ [a] }
      s' :: sessionTrace s' rest

/-! ## Theorems -/

/-- SHA-256 test vector: the digest of the empty message. -/
theorem sha256_empty_vector :
    bytesToHex (sha256 []) =
      "e3b0c44298fc1c149afbf4c8996fb92427ae41e4649b934ca495991b7852b855" := by
  decide

/-- SHA-256 test vector: the digest of the three-byte message abc. -/
theorem sha256_abc_vector :
    bytesToHex (sha256 [97, 98, 99]) =
      "ba7816bf8f01cfea414140de5dae2223b00361a396177a9cb410ff61f20015ad" := by
  decide

/-- The model's ceiling division agrees with the mathematical ceiling of
the quotient. -/
theorem ceilDiv_eq_ceil (a b : Nat) : ceilDiv a b = a ⌈/⌉ b :=
  (Nat.ceilDiv_eq_add_pred_div a b).symm

/-- C7: getOptimalChunkSize is the monotonic step function returning
256 KiB below 10 MiB, 512 KiB from 10 MiB up to 100 MiB, 1 MiB from
100 MiB up to 1 GiB, 2 MiB from 1 GiB up to 10 GiB, and 4 MiB from
10 GiB on. -/
theorem getOptimalChunkSize_step (fileSize : Nat) :
    (fileSize < 10 * 1024 * 1024 → getOptimalChunkSize fileSize = 256 * 1024) ∧
    (10 * 1024 * 1024 ≤ fileSize ∧ fileSize < 100 * 1024 * 1024 →
      getOptimalChunkSize fileSize = 512 * 1024) ∧
    (100 * 1024 * 1024 ≤ fileSize ∧ fileSize < 1024 * 1024 * 1024 →
      getOptimalChunkSize fileSize = 1024 * 1024) ∧
    (1024 * 1024 * 1024 ≤ fileSize ∧ fileSize < 10 * 1024 * 1024 * 1024 →
      getOptimalChunkSize fileSize = 2 * 1024 * 1024) ∧
    (10 * 1024 * 1024 * 1024 ≤ fileSize →
      getOptimalChunkSize fileSize = 4 * 1024 * 1024) ∧
    (∀ smaller, smaller ≤ fileSize →
      getOptimalChunkSize smaller ≤ getOptimalChunkSize fileSize) := by
  refine ⟨?_, ?_, ?_, ?_, ?_, ?_⟩ <;>
    (intro h; unfold getOptimalChunkSize; split_ifs <;> omega)

/-- C7 witness: the step function evaluated in each bucket. -/
theorem getOptimalChunkSize_step_witness :
    getOptimalChunkSize 0 = 262144 ∧
    getOptimalChunkSize (50 * 1024 * 1024) = 524288 ∧
    getOptimalChunkSize (500 * 1024 * 1024) = 1048576 ∧
    getOptimalChunkSize (5 * 1024 * 1024 * 1024) = 2097152 ∧
    getOptimalChunkSize (20 * 1024 * 1024 * 1024) = 4194304 :=
  ⟨(getOptimalChunkSize_step 0).1 (by norm_num),
   (getOptimalChunkSize_step (50 * 1024 * 1024)).2.1 (by norm_num),
   (getOptimalChunkSize_step (500 * 1024 * 1024)).2.2.1 (by norm_num),
   (getOptimalChunkSize_step (5 * 1024 * 1024 * 1024)).2.2.2.1 (by norm_num),
   (getOptimalChunkSize_step (20 * 1024 * 1024 * 1024)).2.2.2.2.1 (by norm_num)⟩

/-- C8 counterexample: a 260 MiB file does not get the 512 KiB chunk size
the claim asserts, so the claimed chunk count of 521 does not arise from
the code either. -/
theorem chunkSize_260MiB_not_512KiB :
    ¬ (getOptimalChunkSize (260 * 1024 * 1024) = 524288 ∧
       ceilDiv (260 * 1024 * 1024) (getOptimalChunkSize (260 * 1024 * 1024)) = 521) := by
  decide

/-- C8 amended: a 260 MiB file falls in the 100 MiB to 1 GiB bucket, so
the selected chunk size is 1 MiB and the chunk count is the ceiling of
260 MiB over 1 MiB, which is 260. -/
theorem chunkSize_260MiB_is_1MiB :
    getOptimalChunkSize (260 * 1024 * 1024) = 1048576 ∧
    ceilDiv (260 * 1024 * 1024) 1048576 = 260 ∧
    (260 * 1024 * 1024) ⌈/⌉ 1048576 = 260 := by
  refine ⟨by decide, by decide, ?_⟩
  rw [← ceilDiv_eq_ceil]
  decide

/-! ### Digest shape lemmas -/

/-- A big-endian byte serialization of width k has length k. -/
theorem beBytes_length (k : Nat) : ∀ n, (beBytes k n).length = k := by
  induction k with
  | zero => intro n; rfl
  | succ k ih => intro n; simp [beBytes, ih]

/-- Every SHA-256 digest is 32 bytes long. -/
theorem sha256_length (ms : List Nat) : (sha256 ms).length = 32 := by
  simp [sha256, hashBytes, beBytes_length]

/-- Writing a list of 32-byte hashes into a buffer made of a filled
prefix and a zero area of exactly the right size concatenates them after
the prefix. -/
theorem setHashes_eq_append :
    ∀ (hs : List (List Nat)) (pre rest : List Nat) (i : Nat),
      (∀ h ∈ hs, h.length = 32) → pre.length = i * 32 →
      rest.length = hs.length * 32 →
      setHashes (pre ++ rest) i hs = pre ++ hs.flatten := by
  intro hs
  induction hs with
  | nil =>
      intro pre rest i _ _ hr
      have hrest : rest = [] := List.eq_nil_of_length_eq_zero (by simpa using hr)
      subst hrest
      simp [setHashes]
  | cons h hs ih =>
      intro pre rest i hlen hp hr
      have hh : h.length = 32 := hlen h (List.mem_cons_self _ _)
      have htake : (pre ++ rest).take (i * 32) = pre := by
        rw [← hp]
        exact List.take_left pre rest
      have hdrop : (pre ++ rest).drop (i * 32 + h.length) = rest.drop 32 := by
        rw [hh, ← hp]
        simp [List.drop_append]
      have e1 : writeAt (pre ++ rest) (i * 32) h = (pre ++ h) ++ rest.drop 32 := by
        unfold writeAt
        rw [htake, hdrop]
      simp only [setHashes]
      rw [e1, ih (pre ++ h) (rest.drop 32) (i + 1)
        (fun x hx => hlen x (List.mem_cons_of_mem _ hx))
        (by simp [List.length_append, hh, hp, Nat.succ_mul])
        (by simp only [List.length_drop, hr, List.length_cons]; omega)]
      simp [List.flatten_cons, List.append_assoc]

/-- The combined hash buffer of processFileStream is the concatenation of
the chunk hashes when each hash is 32 bytes. -/
theorem combinedHashBuffer_eq_flatten (hs : List (List Nat))
    (hlen : ∀ h ∈ hs, h.length = 32) :
    combinedHashBuffer hs = hs.flatten := by
  have h0 := setHashes_eq_append hs [] (List.replicate (hs.length * 32) 0) 0 hlen
    (by simp) (by simp)
  simpa [combinedHashBuffer] using h0

/-- A list of 32-byte lists flattens to 32 times as many bytes. -/
theorem flatten_length_of_all32 :
    ∀ (l : List (List Nat)), (∀ x ∈ l, x.length = 32) →
      l.flatten.length = l.length * 32 := by
  intro l
  induction l with
  | nil => intro _; simp
  | cons x xs ih =>
      intro hx
      have h1 : x.length = 32 := hx x (List.mem_cons_self _ _)
      have h2 := ih (fun y hy => hx y (List.mem_cons_of_mem _ hy))
      simp only [List.flatten_cons, List.length_append, List.length_cons, h1, h2]
      omega

/-- C6: the fingerprint of processFileStream is a digest of digests: the
SHA-256 of the in-order concatenation of the per-chunk SHA-256 digests,
a buffer of totalChunks times 32 bytes. -/
theorem processFileStream_digest_of_digests (file : List Nat) (chunkSize : Nat) :
    (processFileStream file chunkSize).fileHash =
      bytesToHex (sha256 (((processedChunks file chunkSize).map sha256).flatten)) ∧
    ((processedChunks file chunkSize).map sha256).flatten.length =
      (processFileStream file chunkSize).totalChunks * 32 := by
  have hlen32 : ∀ h ∈ (processedChunks file chunkSize).map sha256, h.length = 32 := by
    intro h hh
    obtain ⟨x, _, rfl⟩ := List.mem_map.mp hh
    exact sha256_length x
  have hcomb := combinedHashBuffer_eq_flatten _ hlen32
  constructor
  · rw [← hcomb]
    simp [processFileStream, processedChunks, combinedHashBuffer, List.map_map,
      Function.comp_def]
  · rw [flatten_length_of_all32 _ hlen32]
    simp [processFileStream, processedChunks]

/-! ### Chunking round-trip lemmas -/

/-- Flattening n front-chunks of size c recovers a list of length at most
n times c. -/
theorem flatten_chunksRecAux (c : Nat) :
    ∀ (n : Nat) (l : List Nat), l.length ≤ n * c →
      (chunksRecAux c n l).flatten = l := by
  intro n
  induction n with
  | zero =>
      intro l hl
      have : l = [] := List.eq_nil_of_length_eq_zero (by omega)
      subst this
      rfl
  | succ n ih =>
      intro l hl
      have h2 : (l.drop c).length ≤ n * c := by
        rw [Nat.succ_mul] at hl
        simp only [List.length_drop]
        omega
      simp only [chunksRecAux, List.flatten_cons, ih (l.drop c) h2]
      exact List.take_append_drop c l

/-- Ceiling division bounds the dividend by the quotient times the
divisor. -/
theorem le_ceilDiv_mul (len c : Nat) (hc : 0 < c) : len ≤ ceilDiv len c * c := by
  unfold ceilDiv
  have h2 := Nat.div_add_mod (len + c - 1) c
  have h3 : (len + c - 1) % c < c := Nat.mod_lt _ hc
  rw [Nat.mul_comm c ((len + c - 1) / c)] at h2
  generalize (len + c - 1) / c * c = s at h2 ⊢
  omega

/-- A zero ceiling quotient with a positive divisor forces a zero
dividend. -/
theorem length_zero_of_ceilDiv_zero (len c : Nat) (hc : 0 < c)
    (h : ceilDiv len c = 0) : len = 0 := by
  unfold ceilDiv at h
  have h1 : ¬ (1 * c ≤ len + c - 1) := by
    intro hle
    have := (Nat.le_div_iff_mul_le hc).mpr hle
    omega
  omega

/-- Peeling one chunk off a positive-length list decrements the ceiling
quotient. -/
theorem ceilDiv_pos_sub (len c : Nat) (hc : 0 < c) (hlen : 0 < len) :
    ceilDiv len c = ceilDiv (len - c) c + 1 := by
  unfold ceilDiv
  rcases le_or_lt len c with h | h
  · have hz : len - c = 0 := by omega
    rw [hz]
    have h1 : (len + c - 1) / c = 1 := by
      apply le_antisymm
      · have hlt : (len + c - 1) / c < 2 :=
          (Nat.div_lt_iff_lt_mul hc).mpr (by omega)
        omega
      · have hge : 1 * c ≤ len + c - 1 := by omega
        exact (Nat.le_div_iff_mul_le hc).mpr hge
    have h0 : (0 + c - 1) / c = 0 := Nat.div_eq_of_lt (by omega)
    omega
  · have e : len + c - 1 = (len - c + c - 1) + c := by omega
    rw [e, Nat.add_div_right _ hc]

/-- Shifting the slice window by one chunk matches slicing the dropped
list. -/
theorem slice_shift (file : List Nat) (c i : Nat) :
    sliceBytes file ((i + 1) * c) (min ((i + 1) * c + c) file.length) =
      sliceBytes (file.drop c) (i * c) (min (i * c + c) (file.drop c).length) := by
  unfold sliceBytes
  have hd : (file.drop c).drop (i * c) = file.drop ((i + 1) * c) := by
    rw [List.drop_drop]
    congr 1
    ring
  rw [hd, List.length_drop]
  congr 1
  have e : (i + 1) * c = i * c + c := by ring
  rw [e]
  generalize i * c = s
  omega

/-- The map-over-range slicing of processFileStream equals the recursive
front-chunking. -/
theorem processedChunks_eq_chunksRecAux (c : Nat) (hc : 0 < c) :
    ∀ (n : Nat) (file : List Nat), ceilDiv file.length c = n →
      processedChunks file c = chunksRecAux c n file := by
  intro n
  induction n with
  | zero =>
      intro file hn
      simp [processedChunks, chunksRecAux, hn]
  | succ n ih =>
      intro file hn
      have hpos : 0 < file.length := by
        by_contra hb
        have h0 : file.length = 0 := by omega
        rw [h0] at hn
        simp [ceilDiv] at hn
        rcases Nat.eq_zero_or_pos c with hcz | hcp
        · omega
        · rw [Nat.div_eq_of_lt (by omega)] at hn
          omega
      have hrec : ceilDiv (file.drop c).length c = n := by
        rw [List.length_drop]
        have := ceilDiv_pos_sub file.length c hc hpos
        omega
      unfold processedChunks
      rw [hn, List.range_succ_eq_map, List.map_cons, List.map_map]
      unfold chunksRecAux
      congr 1
      · rcases le_total c file.length with h | h
        · simp [sliceBytes, Nat.min_eq_left (by omega : 0 * c + c ≤ file.length)]
        · simp [sliceBytes, Nat.min_eq_right (by omega : file.length ≤ 0 * c + c),
            List.take_of_length_le, h]
      · rw [← ih (file.drop c) hrec]
        unfold processedChunks
        rw [hrec]
        apply List.map_congr_left
        intro i _
        have := slice_shift file c i
        simpa [Function.comp, List.length_drop, Nat.succ_eq_add_one] using this

/-- C5: the chunks produced by processFileStream are the contiguous
slices of the file, concatenating them in index order reproduces the
file, and totalChunks is the ceiling of the size over the chunk size. -/
theorem processFileStream_roundtrip (file : List Nat) (chunkSize : Nat)
    (hc : 0 < chunkSize) :
    (processedChunks file chunkSize).flatten = file ∧
    (processFileStream file chunkSize).totalChunks = file.length ⌈/⌉ chunkSize ∧
    ∀ i, i < (processFileStream file chunkSize).totalChunks →
      (processedChunks file chunkSize).getD i [] =
        sliceBytes file (i * chunkSize) (min ((i + 1) * chunkSize) file.length) := by
  refine ⟨?_, ?_, ?_⟩
  · rw [processedChunks_eq_chunksRecAux chunkSize hc (ceilDiv file.length chunkSize) file rfl]
    exact flatten_chunksRecAux chunkSize _ file (le_ceilDiv_mul file.length chunkSize hc)
  · exact ceilDiv_eq_ceil file.length chunkSize
  · intro i hi
    have hi' : i < ceilDiv file.length chunkSize := hi
    have hlen : i < ((List.range (ceilDiv file.length chunkSize)).map (fun chunkIndex =>
        sliceBytes file (chunkIndex * chunkSize)
          (min (chunkIndex * chunkSize + chunkSize) file.length))).length := by
      simpa using hi'
    unfold processedChunks
    rw [List.getD_eq_getElem _ _ hlen, List.getElem_map, List.getElem_range]
    congr 2
    ring

/-- C5 witness: a five-byte file with chunk size two. -/
theorem processFileStream_roundtrip_witness :
    0 < 2 ∧ (processedChunks [1, 2, 3, 4, 5] 2).flatten = [1, 2, 3, 4, 5] ∧
      (processFileStream [1, 2, 3, 4, 5] 2).totalChunks =
        ([1, 2, 3, 4, 5] : List Nat).length ⌈/⌉ 2 :=
  ⟨by decide, (processFileStream_roundtrip [1, 2, 3, 4, 5] 2 (by decide)).1,
   (processFileStream_roundtrip [1, 2, 3, 4, 5] 2 (by decide)).2.1⟩

/-! ### Sender Protocol lemmas -/

/-- A chunk message in the loop output has an index in the window and
every earlier index in the window was acknowledged. -/
theorem sendChunksLoop_mem_acks (fileName : String) (file : List Nat)
    (total : Nat) (ack : Nat → Bool) :
    ∀ (fuel i k tc : Nat) (d : List Nat) (l : Bool),
      WireMsg.fileChunk fileName k tc d l ∈
        (sendChunksLoop fileName file total ack fuel i).1 →
      i ≤ k ∧ k < i + fuel ∧ ∀ m, i ≤ m → m < k → ack m = true := by
  intro fuel
  induction fuel with
  | zero =>
      intro i k tc d l hmem
      simp [sendChunksLoop] at hmem
  | succ fuel ih =>
      intro i k tc d l hmem
      simp only [sendChunksLoop] at hmem
      by_cases hai : ack i = true
      · rw [if_pos hai] at hmem
        simp only [List.mem_cons] at hmem
        rcases hmem with heq | hmem
        · simp only [WireMsg.fileChunk.injEq] at heq
          obtain ⟨-, hk, -, -, -⟩ := heq
          subst hk
          exact ⟨le_refl _, by omega, fun m hm1 hm2 => by omega⟩
        · obtain ⟨h1, h2, h3⟩ := ih (i + 1) k tc d l hmem

          refine ⟨by omega, by omega, fun m hm1 hm2 => ?_⟩
          rcases Nat.eq_or_lt_of_le hm1 with hmi | hmi
          · rw [← hmi]; exact hai
          · exact h3 m (by omega) hm2
      · rw [if_neg hai] at hmem
        simp only [List.mem_cons, List.not_mem_nil, or_false] at hmem
        simp only [WireMsg.fileChunk.injEq] at hmem
        obtain ⟨-, hk, -, -, -⟩ := hmem
        subst hk
        exact ⟨le_refl _, by omega, fun m hm1 hm2 => by omega⟩

/-- When index j inside the window is the first whose ack never arrives,
the loop stops at j and sends no chunk beyond j. -/
theorem sendChunksLoop_timeout (fileName : String) (file : List Nat)
    (total : Nat) (ack : Nat → Bool) :
    ∀ (fuel i j : Nat), i ≤ j → j < i + fuel → ack j = false →
      (∀ m, i ≤ m → m < j → ack m = true) →
      (sendChunksLoop fileName file total ack fuel i).2 = some j ∧
      ∀ k tc d l, WireMsg.fileChunk fileName k tc d l ∈
        (sendChunksLoop fileName file total ack fuel i).1 → k ≤ j := by
  intro fuel
  induction fuel with
  | zero => intro i j h1 h2 h3 h4; omega
  | succ fuel ih =>
      intro i j h1 h2 h3 h4
      by_cases hij : i = j
      · subst hij
        simp only [sendChunksLoop]
        rw [if_neg (by simp [h3])]
        refine ⟨rfl, ?_⟩
        intro k tc d l hmem
        simp only [List.mem_cons, List.not_mem_nil, or_false] at hmem
        simp only [WireMsg.fileChunk.injEq] at hmem
        omega
      · have hlt : i < j := lt_of_le_of_ne h1 hij
        have hai : ack i = true := h4 i (le_refl _) hlt
        have hrest := ih (i + 1) j (by omega) (by omega) h3
          (fun m hm1 hm2 => h4 m (by omega) hm2)
        simp only [sendChunksLoop]
        rw [if_pos hai]
        refine ⟨hrest.1, ?_⟩
        intro k tc d l hmem
        simp only [List.mem_cons] at hmem
        rcases hmem with heq | hmem
        · simp only [WireMsg.fileChunk.injEq] at heq
          omega
        · exact hrest.2 k tc d l hmem

/-- When every ack arrives, the loop never times out and sends exactly
fuel chunk messages. -/
theorem sendChunksLoop_all_acks (fileName : String) (file : List Nat)
    (total : Nat) (ack : Nat → Bool) (hack : ∀ m, ack m = true) :
    ∀ (fuel i : Nat),
      (sendChunksLoop fileName file total ack fuel i).2 = none ∧
      countChunkMsgs (sendChunksLoop fileName file total ack fuel i).1 = fuel := by
  intro fuel
  induction fuel with
  | zero => intro i; exact ⟨rfl, rfl⟩
  | succ fuel ih =>
      intro i
      simp only [sendChunksLoop]
      rw [if_pos (hack i)]
      refine ⟨(ih (i + 1)).1, ?_⟩
      simp only [countChunkMsgs, List.filter_cons]
      have := (ih (i + 1)).2
      simp only [countChunkMsgs] at this
      simp [this]

/-- Tail messages after a chunk timeout: the transfer-error is appended. -/
theorem sendTailMsgs_some (n : String) (l : List WireMsg) (i : Nat) (fin : Bool) :
    sendTailMsgs n l (some i) fin =
      l ++ [WireMsg.transferError n
        ("Transfer failed: Chunk " ++ toString i ++ " acknowledgment timeout")] := rfl

/-- Tail messages of a fully confirmed run: nothing is appended. -/
theorem sendTailMsgs_none_true (n : String) (l : List WireMsg) :
    sendTailMsgs n l none true = l := rfl

/-- Tail messages when the final confirmation never arrives: the
transfer-error is appended. -/
theorem sendTailMsgs_none_false (n : String) (l : List WireMsg) :
    sendTailMsgs n l none false =
      l ++ [WireMsg.transferError n
        "Transfer failed: Final confirmation timeout"] := rfl

/-- Local outcome of a chunk timeout. -/
theorem sendTailResult_some (i : Nat) (fin : Bool) :
    sendTailResult (some i) fin = Except.error (SendErr.chunkTimeout i) := rfl

/-- Local outcome of a fully confirmed run. -/
theorem sendTailResult_none_true :
    sendTailResult none true = Except.ok () := rfl

/-- A leading file-start message does not count as a chunk message. -/
theorem countChunkMsgs_fileStart_cons (a : String) (b : Nat) (c : String)
    (d : Nat) (e : String) (l : List WireMsg) :
    countChunkMsgs (WireMsg.fileStart a b c d e :: l) = countChunkMsgs l := rfl

/-- A trailing transfer-error message does not count as a chunk
message. -/
theorem countChunkMsgs_append_transferError (l : List WireMsg) (n e : String) :
    countChunkMsgs (l ++ [WireMsg.transferError n e]) = countChunkMsgs l := by
  simp [countChunkMsgs, List.filter_append]

/-- The first message of every sendFileInChunks run is the file-start
carrying the whole-buffer SHA-256 fingerprint and the chunk count for
the fixed 256 KiB chunk size. -/
theorem sendFileInChunks_head (fileName fileType : String) (file : List Nat)
    (ack : Nat → Bool) (fin : Bool) :
    (sendFileInChunks fileName fileType file ack fin).msgs.head? =
      some (WireMsg.fileStart fileName file.length fileType
        (ceilDiv file.length senderChunkSize) (bytesToHex (sha256 file))) := rfl

set_option maxRecDepth 100000 in
/-- C1: the two fingerprint computations are different functions — for
this one-byte file the whole-buffer SHA-256 sent in file-start by
sendFileInChunks differs from the digest-of-digests fingerprint computed
by processFileStream for the same file and chunk size. -/
theorem fingerprint_schemes_differ :
    ∃ file : List Nat,
      (∀ fileName fileType ack fin,
        (sendFileInChunks fileName fileType file ack fin).msgs.head? =
          some (WireMsg.fileStart fileName file.length fileType
            (ceilDiv file.length senderChunkSize) (bytesToHex (sha256 file)))) ∧
      bytesToHex (sha256 file) ≠ (processFileStream file senderChunkSize).fileHash := by
  refine ⟨[0], fun fileName fileType ack fin =>
    sendFileInChunks_head fileName fileType [0] ack fin, ?_⟩
  decide

/-- C2: when no ack arrives for chunk j inside its 5 second window (and
all earlier chunks were acknowledged), sendFileInChunks fails locally
with the chunk-timeout error, sends transfer-error to the peer, sends no
chunk beyond j, and in every run a chunk is sent only after every earlier
index was acknowledged. -/
theorem sendFileInChunks_ack_gated (fileName fileType : String) (file : List Nat)
    (ack : Nat → Bool) (fin : Bool) (j : Nat)
    (hj : j < ceilDiv file.length senderChunkSize)
    (hfail : ack j = false)
    (hprev : ∀ m, m < j → ack m = true) :
    (sendFileInChunks fileName fileType file ack fin).result =
      Except.error (SendErr.chunkTimeout j) ∧
    (∃ e, WireMsg.transferError fileName e ∈
      (sendFileInChunks fileName fileType file ack fin).msgs) ∧
    (∀ k tc d l, j < k →
      WireMsg.fileChunk fileName k tc d l ∉
        (sendFileInChunks fileName fileType file ack fin).msgs) ∧
    (∀ k tc d l,
      WireMsg.fileChunk fileName (k + 1) tc d l ∈
        (sendFileInChunks fileName fileType file ack fin).msgs → ack k = true) ∧
    chunkAckTimeoutMs = 5000 := by
  have htime := sendChunksLoop_timeout fileName file
    (ceilDiv file.length senderChunkSize) ack
    (ceilDiv file.length senderChunkSize) 0 j (Nat.zero_le _) (by omega) hfail
    (fun m _ hm => hprev m hm)
  have hout : sendFileInChunks fileName fileType file ack fin =
      { msgs := WireMsg.fileStart fileName file.length fileType
          (ceilDiv file.length senderChunkSize) (bytesToHex (sha256 file)) ::
          ((sendChunksLoop fileName file (ceilDiv file.length senderChunkSize) ack
              (ceilDiv file.length senderChunkSize) 0).1 ++
            [WireMsg.transferError fileName
              ("Transfer failed: Chunk " ++ toString j ++ " acknowledgment timeout")]),
        result := Except.error (SendErr.chunkTimeout j) } := by
    simp only [sendFileInChunks]
    rw [htime.1, sendTailMsgs_some, sendTailResult_some]
  refine ⟨?_, ?_, ?_, ?_, rfl⟩
  · rw [hout]
  · refine ⟨"Transfer failed: Chunk " ++ toString j ++ " acknowledgment timeout", ?_⟩
    rw [hout]
    exact List.mem_cons_of_mem _
      (List.mem_append_right _ (List.mem_cons_self _ _))
  · intro k tc d l hk hmem
    rw [hout] at hmem
    rcases List.mem_cons.mp hmem with h1 | h1
    · exact WireMsg.noConfusion h1
    · rcases List.mem_append.mp h1 with h2 | h2
      · exact absurd (htime.2 k tc d l h2) (by omega)
      · rcases List.mem_cons.mp h2 with h3 | h3
        · exact WireMsg.noConfusion h3
        · exact absurd h3 (List.not_mem_nil _)
  · intro k tc d l hmem
    rw [hout] at hmem
    rcases List.mem_cons.mp hmem with h1 | h1
    · exact WireMsg.noConfusion h1
    · rcases List.mem_append.mp h1 with h2 | h2
      · exact (sendChunksLoop_mem_acks fileName file
          (ceilDiv file.length senderChunkSize) ack
          (ceilDiv file.length senderChunkSize) 0 (k + 1) tc d l h2).2.2 k
          (Nat.zero_le _) (Nat.lt_succ_self _)
      · rcases List.mem_cons.mp h2 with h3 | h3
        · exact WireMsg.noConfusion h3
        · exact absurd h3 (List.not_mem_nil _)

/-- C2 witness: a three-byte file whose first chunk ack never arrives. -/
theorem sendFileInChunks_ack_gated_witness :
    (sendFileInChunks "f" "t" [1, 2, 3] (fun _ => false) true).result =
      Except.error (SendErr.chunkTimeout 0) ∧
    chunkAckTimeoutMs = 5000 :=
  ⟨(sendFileInChunks_ack_gated "f" "t" [1, 2, 3] (fun _ => false) true 0
      (by decide) rfl (fun m hm => absurd hm (Nat.not_lt_zero m))).1, rfl⟩

/-- C10: the live wire path always uses the fixed 256 KiB chunk size:
file-start advertises the ceiling of the size over 256 KiB, that many
file-chunk messages are sent when all acks arrive, and the adaptive
getOptimalChunkSize policy (which differs from 256 KiB for every file of
at least 10 MiB) plays no part. -/
theorem sendFileInChunks_fixed_chunk_size (fileName fileType : String)
    (file : List Nat) (ack : Nat → Bool) (fin : Bool)
    (hack : ∀ m, ack m = true) :
    (sendFileInChunks fileName fileType file ack fin).msgs.head? =
      some (WireMsg.fileStart fileName file.length fileType
        (ceilDiv file.length (256 * 1024)) (bytesToHex (sha256 file))) ∧
    countChunkMsgs (sendFileInChunks fileName fileType file ack fin).msgs =
      ceilDiv file.length (256 * 1024) ∧
    senderChunkSize = 256 * 1024 ∧
    (∀ fileSize, 10 * 1024 * 1024 ≤ fileSize →
      getOptimalChunkSize fileSize ≠ senderChunkSize) := by
  have hall := sendChunksLoop_all_acks fileName file
    (ceilDiv file.length senderChunkSize) ack hack
    (ceilDiv file.length senderChunkSize) 0
  refine ⟨sendFileInChunks_head fileName fileType file ack fin, ?_, rfl, ?_⟩
  · cases fin with
    | false =>
        have hout : (sendFileInChunks fileName fileType file ack false).msgs =
            WireMsg.fileStart fileName file.length fileType
              (ceilDiv file.length senderChunkSize) (bytesToHex (sha256 file)) ::
            ((sendChunksLoop fileName file (ceilDiv file.length senderChunkSize) ack
                (ceilDiv file.length senderChunkSize) 0).1 ++
              [WireMsg.transferError fileName
                "Transfer failed: Final confirmation timeout"]) := by
          simp only [sendFileInChunks]
          rw [hall.1, sendTailMsgs_none_false]
        rw [hout, countChunkMsgs_fileStart_cons, countChunkMsgs_append_transferError]
        exact hall.2
    | true =>
        have hout : (sendFileInChunks fileName fileType file ack true).msgs =
            WireMsg.fileStart fileName file.length fileType
              (ceilDiv file.length senderChunkSize) (bytesToHex (sha256 file)) ::
            (sendChunksLoop fileName file (ceilDiv file.length senderChunkSize) ack
                (ceilDiv file.length senderChunkSize) 0).1 := by
          simp only [sendFileInChunks]
          rw [hall.1, sendTailMsgs_none_true]
        rw [hout, countChunkMsgs_fileStart_cons]
        exact hall.2
  · intro fileSize hge
    unfold getOptimalChunkSize senderChunkSize
    split_ifs <;> omega

/-- C10 witness: a one-byte file acknowledged throughout. -/
theorem sendFileInChunks_fixed_chunk_size_witness :
    countChunkMsgs (sendFileInChunks "f" "t" [1] (fun _ => true) true).msgs =
      ceilDiv ([1] : List Nat).length (256 * 1024) ∧
    senderChunkSize = 256 * 1024 :=
  ⟨(sendFileInChunks_fixed_chunk_size "f" "t" [1] (fun _ => true) true
      (fun _ => rfl)).2.1,
   (sendFileInChunks_fixed_chunk_size "f" "t" [1] (fun _ => true) true
      (fun _ => rfl)).2.2.1⟩

/-! ### Receiver Protocol lemmas -/

/-- Flattening the stored chunks yields exactly the accumulated byte
count of the verification loop. -/
theorem assembled_length_eq_totalSize (chunks : Nat → Option (List Nat))
    (totalChunks : Nat) :
    (((List.range totalChunks).map (fun i => (chunks i).getD [])).flatten).length =
      ((List.range totalChunks).map (fun i => ((chunks i).getD []).length)).sum := by
  rw [List.length_flatten, List.map_map]
  rfl

/-- C3 counterexample: with every index stored but the single stored
chunk empty and a nonzero expected size, completeFileDownload reports
CorruptedChunks and sends the corrupted-chunks file-error, not the
SizeMismatch file-error the claim requires for an all-present reassembly
of the wrong total length. -/
theorem completeFileDownload_empty_chunk_counterexample :
    (completeFileDownload "f" (fun i => if i = 0 then some [] else none) 1 1 "h").1 =
      CompleteOutcome.corruptedChunks [0] ∧
    (completeFileDownload "f" (fun i => if i = 0 then some [] else none) 1 1 "h").2 =
      [WireMsg.fileError "f" "Corrupted chunks: 0"] ∧
    (completeFileDownload "f" (fun i => if i = 0 then some [] else none) 1 1 "h").2 ≠
      [WireMsg.fileError "f" "File size mismatch: expected 1, got 0"] ∧
    ((fun i => if i = 0 then some ([] : List Nat) else none) 0).isSome = true ∧
    ((List.range 1).map (fun i =>
      (((fun j => if j = 0 then some ([] : List Nat) else none) i).getD []).length)).sum ≠ 1 := by
  decide

/-- C3 amended: the four verification checks of completeFileDownload
fail distinctly, in order: a missing index gives MissingChunks with a
file-error; all stored but some stored chunk empty gives CorruptedChunks
with a file-error; all stored non-empty but wrong total length gives
SizeMismatch with a file-error; right length but wrong SHA-256 gives
IntegrityMismatch with a file-error; only when every check passes is
file-complete with verified true sent. -/
theorem completeFileDownload_checks (fileName : String)
    (chunks : Nat → Option (List Nat)) (totalChunks expectedFileSize : Nat)
    (expectedFileHash : String) :
    ((∃ i, i < totalChunks ∧ chunks i = none) →
      (∃ idxs, idxs ≠ [] ∧
        (completeFileDownload fileName chunks totalChunks expectedFileSize expectedFileHash).1 =
          CompleteOutcome.missingChunks idxs) ∧
      (∃ e, (completeFileDownload fileName chunks totalChunks expectedFileSize expectedFileHash).2 =
        [WireMsg.fileError fileName e])) ∧
    ((∀ i, i < totalChunks → (chunks i).isSome) →
      (∃ i, i < totalChunks ∧ chunks i = some []) →
      (∃ idxs, idxs ≠ [] ∧
        (completeFileDownload fileName chunks totalChunks expectedFileSize expectedFileHash).1 =
          CompleteOutcome.corruptedChunks idxs) ∧
      (∃ e, (completeFileDownload fileName chunks totalChunks expectedFileSize expectedFileHash).2 =
        [WireMsg.fileError fileName e])) ∧
    ((∀ i, i < totalChunks → ∃ d, chunks i = some d ∧ d ≠ []) →
      ((List.range totalChunks).map (fun i => ((chunks i).getD []).length)).sum ≠ expectedFileSize →
      (completeFileDownload fileName chunks totalChunks expectedFileSize expectedFileHash).1 =
        CompleteOutcome.sizeMismatch expectedFileSize
          ((List.range totalChunks).map (fun i => ((chunks i).getD []).length)).sum ∧
      (∃ e, (completeFileDownload fileName chunks totalChunks expectedFileSize expectedFileHash).2 =
        [WireMsg.fileError fileName e])) ∧
    ((∀ i, i < totalChunks → ∃ d, chunks i = some d ∧ d ≠ []) →
      ((List.range totalChunks).map (fun i => ((chunks i).getD []).length)).sum = expectedFileSize →
      bytesToHex (sha256 (((List.range totalChunks).map (fun i => (chunks i).getD [])).flatten)) ≠
        expectedFileHash →
      (completeFileDownload fileName chunks totalChunks expectedFileSize expectedFileHash).1 =
        CompleteOutcome.integrityMismatch expectedFileHash
          (bytesToHex (sha256 (((List.range totalChunks).map (fun i => (chunks i).getD [])).flatten))) ∧
      (∃ e, (completeFileDownload fileName chunks totalChunks expectedFileSize expectedFileHash).2 =
        [WireMsg.fileError fileName e])) ∧
    ((∀ i, i < totalChunks → ∃ d, chunks i = some d ∧ d ≠ []) →
      ((List.range totalChunks).map (fun i => ((chunks i).getD []).length)).sum = expectedFileSize →
      bytesToHex (sha256 (((List.range totalChunks).map (fun i => (chunks i).getD [])).flatten)) =
        expectedFileHash →
      (completeFileDownload fileName chunks totalChunks expectedFileSize expectedFileHash).1 =
        CompleteOutcome.verifiedComplete expectedFileSize expectedFileHash ∧
      (completeFileDownload fileName chunks totalChunks expectedFileSize expectedFileHash).2 =
        [WireMsg.fileComplete fileName true expectedFileSize expectedFileHash]) := by
  have hmissing_nil : (∀ i, i < totalChunks → (chunks i).isSome) →
      (List.range totalChunks).filter (fun i => (chunks i).isNone) = [] := by
    intro hall
    rw [List.filter_eq_nil_iff]
    intro a ha
    obtain ⟨d, hd⟩ := Option.isSome_iff_exists.mp (hall a (List.mem_range.mp ha))
    simp [hd]
  have hcorr_nil : (∀ i, i < totalChunks → ∃ d, chunks i = some d ∧ d ≠ []) →
      ((List.range totalChunks).filter
        (fun i => match chunks i with | some c => c.isEmpty | none => false)) = [] := by
    intro hall
    rw [List.filter_eq_nil_iff]
    intro a ha
    obtain ⟨d, hd, hne⟩ := hall a (List.mem_range.mp ha)
    cases d with
    | nil => exact absurd rfl hne
    | cons x xs => simp [hd]
  have hlen := assembled_length_eq_totalSize chunks totalChunks
  refine ⟨?_, ?_, ?_, ?_, ?_⟩
  · rintro ⟨i, hi, hnone⟩
    have hmem : i ∈ (List.range totalChunks).filter (fun j => (chunks j).isNone) :=
      List.mem_filter.mpr ⟨List.mem_range.mpr hi, by simp [hnone]⟩
    have hpos : ((List.range totalChunks).filter (fun j => (chunks j).isNone)).length > 0 :=
      List.length_pos.mpr (List.ne_nil_of_mem hmem)
    simp only [completeFileDownload]
    rw [if_pos hpos]
    exact ⟨⟨_, List.ne_nil_of_mem hmem, rfl⟩, ⟨_, rfl⟩⟩
  · intro hall hex
    obtain ⟨i, hi, hempty⟩ := hex
    have hmem : i ∈ (List.range totalChunks).filter
        (fun j => match chunks j with | some c => c.isEmpty | none => false) :=
      List.mem_filter.mpr ⟨List.mem_range.mpr hi, by simp [hempty]⟩
    have hpos : ((List.range totalChunks).filter
        (fun j => match chunks j with | some c => c.isEmpty | none => false)).length > 0 :=
      List.length_pos.mpr (List.ne_nil_of_mem hmem)
    simp only [completeFileDownload]
    rw [if_neg (by simp [hmissing_nil hall]), if_pos hpos]
    exact ⟨⟨_, List.ne_nil_of_mem hmem, rfl⟩, ⟨_, rfl⟩⟩
  · intro hall hsz
    have hsome : ∀ i, i < totalChunks → (chunks i).isSome := by
      intro i hi
      obtain ⟨d, hd, -⟩ := hall i hi
      simp [hd]
    simp only [completeFileDownload]
    rw [if_neg (by simp [hmissing_nil hsome]), if_neg (by simp [hcorr_nil hall]),
      if_pos hsz]
    exact ⟨rfl, ⟨_, rfl⟩⟩
  · intro hall hsz hh
    have hsome : ∀ i, i < totalChunks → (chunks i).isSome := by
      intro i hi
      obtain ⟨d, hd, -⟩ := hall i hi
      simp [hd]
    simp only [completeFileDownload]
    rw [if_neg (by simp [hmissing_nil hsome]), if_neg (by simp [hcorr_nil hall]),
      if_neg (by simp [hsz]), if_neg (by rw [hlen]; simp [hsz]), if_pos hh]
    exact ⟨rfl, ⟨_, rfl⟩⟩
  · intro hall hsz hh
    have hsome : ∀ i, i < totalChunks → (chunks i).isSome := by
      intro i hi
      obtain ⟨d, hd, -⟩ := hall i hi
      simp [hd]
    simp only [completeFileDownload]
    rw [if_neg (by simp [hmissing_nil hsome]), if_neg (by simp [hcorr_nil hall]),
      if_neg (by simp [hsz]), if_neg (by rw [hlen]; simp [hsz]), if_neg (by simp [hh])]
    rw [hlen, hsz, hh]
    exact ⟨rfl, rfl⟩

/-- C3 witness: a one-chunk download of the bytes abc verifying against
the known SHA-256 digest, and a missing-index failure. -/
theorem completeFileDownload_checks_witness :
    (completeFileDownload "f" (fun i => if i = 0 then some [97, 98, 99] else none) 1 3
      "ba7816bf8f01cfea414140de5dae2223b00361a396177a9cb410ff61f20015ad").2 =
      [WireMsg.fileComplete "f" true 3
        "ba7816bf8f01cfea414140de5dae2223b00361a396177a9cb410ff61f20015ad"] ∧
    (∃ e, (completeFileDownload "g" (fun _ => none) 1 0 "").2 =
      [WireMsg.fileError "g" e]) :=
  ⟨((completeFileDownload_checks "f" (fun i => if i = 0 then some [97, 98, 99] else none)
      1 3 "ba7816bf8f01cfea414140de5dae2223b00361a396177a9cb410ff61f20015ad").2.2.2.2
      (by
        intro i hi
        have h0 : i = 0 := by omega
        subst h0
        exact ⟨[97, 98, 99], rfl, by decide⟩)
      (by decide) (by decide)).2,
   ((completeFileDownload_checks "g" (fun _ => none) 1 0 "").1
      ⟨0, by decide, rfl⟩).2⟩

/-- C9 counterexample: with download A registered and then download B
registered over it on the same connection, an inbound file-chunk for A is
dropped: the state is unchanged (nothing stored for A) and no message at
all, in particular no chunk-ack for A, is sent. -/
theorem receiver_single_slot_counterexample :
    handleFileChunk (downloadFile (downloadFile none "A").1 "B").1
        (WireMsg.fileChunk "A" 0 1 [1] true) =
      ((downloadFile (downloadFile none "A").1 "B").1, []) ∧
    (downloadFile (downloadFile none "A").1 "B").1 ≠ (downloadFile none "A").1 := by
  decide

/-- C9 amended: inbound messages go through the single global
currentDownloadHandler slot holding only the most recent downloadFile
closure; a chunk whose fileName differs from that download is neither
stored nor acknowledged, while a chunk matching it is stored and
acknowledged. -/
theorem receiver_single_slot_dispatch (st : ReceiverState) (nameA nameB : String)
    (hne : nameA ≠ nameB) (i tc : Nat) (d : List Nat) (l : Bool) (hd : d ≠ []) :
    (downloadFile st nameB).1 =
      some { fileName := nameB, totalChunks := 0, expectedFileSize := 0,
             expectedFileHash := "", mimeType := "", fileChunks := [],
             receivedChunks := 0 } ∧
    handleFileChunk (downloadFile st nameB).1 (WireMsg.fileChunk nameA i tc d l) =
      ((downloadFile st nameB).1, []) ∧
    WireMsg.chunkAck nameB i ∈
      (handleFileChunk (downloadFile st nameB).1 (WireMsg.fileChunk nameB i tc d l)).2 ∧
    (∀ ctx : ActiveDownload, nameA ≠ ctx.fileName →
      handleFileChunk (some ctx) (WireMsg.fileChunk nameA i tc d l) = (some ctx, [])) := by
  refine ⟨rfl, ?_, ?_, ?_⟩
  · simp [downloadFile, handleFileChunk, msgFileName, hne]
  · cases d with
    | nil => exact absurd rfl hd
    | cons x xs =>
        simp only [downloadFile, handleFileChunk, msgFileName]
        cases l <;> simp
  · intro ctx hne2
    simp [handleFileChunk, msgFileName, hne2]

/-- C9 amended witness: concrete downloads A then B. -/
theorem receiver_single_slot_dispatch_witness :
    "A" ≠ "B" ∧ ([1] : List Nat) ≠ [] ∧
    handleFileChunk (downloadFile (none : ReceiverState) "B").1
        (WireMsg.fileChunk "A" 0 1 [1] false) =
      ((downloadFile (none : ReceiverState) "B").1, []) ∧
    WireMsg.chunkAck "B" 0 ∈
      (handleFileChunk (downloadFile (none : ReceiverState) "B").1
        (WireMsg.fileChunk "B" 0 1 [1] false)).2 :=
  ⟨by decide, by decide,
   (receiver_single_slot_dispatch none "A" "B" (by decide) 0 1 [1] false (by decide)).2.1,
   (receiver_single_slot_dispatch none "A" "B" (by decide) 0 1 [1] false (by decide)).2.2.1⟩

/-! ### Session Manager lemmas -/

/-- Every index sent by the resume loop, under any store and any ack
oracle, comes from the remaining list it was given. -/
theorem resumeLoop_sent_subset (store : Nat → Option (List Nat))
    (ackOk : Nat → Bool) :
    ∀ (rem : List Nat) (s : FileTransferSession) (i : Nat),
      i ∈ sentIndices (resumeLoop store ackOk s rem).1 → i ∈ rem := by
  intro rem
  induction rem with
  | nil =>
      intro s i hi
      simp [resumeLoop, sentIndices] at hi
  | cons a rest ih =>
      intro s i hi
      cases hst : store a with
      | none => simp [resumeLoop, hst, sentIndices] at hi
      | some d =>
          by_cases hak : ackOk a = true
          · simp only [resumeLoop, hst, hak, if_true, sentIndices,
              List.filterMap_cons] at hi
            simp only [List.mem_cons] at hi
            rcases hi with h1 | h1
            · simp [h1]
            · exact List.mem_cons_of_mem _ (ih _ i h1)
          · simp only [resumeLoop, hst, hak] at hi
            simp [sentIndices] at hi
            simp [hi]

/-- An all-success resume run: it sends exactly the given remaining list
in order, ends complete with those indices appended, and persists the
expected snapshot after every chunk. -/
theorem resumeLoop_all_success (store : Nat → Option (List Nat))
    (ackOk : Nat → Bool) (hstore : ∀ i, (store i).isSome)
    (hack : ∀ i, ackOk i = true) :
    ∀ (rem : List Nat) (s : FileTransferSession),
      (resumeLoop store ackOk s rem).2.2 = Except.ok () ∧
      sentIndices (resumeLoop store ackOk s rem).1 = rem ∧
      (resumeLoop store ackOk s rem).2.1 =
        { s with completedChunks := s.completedChunks ++ rem, isComplete := true } ∧
      savedSessions (resumeLoop store ackOk s rem).1 = sessionTrace s rem := by
  intro rem
  induction rem with
  | nil =>
      intro s
      refine ⟨rfl, rfl, by simp [resumeLoop], by simp [resumeLoop, savedSessions, sessionTrace]⟩
  | cons a rest ih =>
      intro s
      obtain ⟨d, hd⟩ := Option.isSome_iff_exists.mp (hstore a)
      have hak := hack a
      have ihs := ih { s with completedChunks := s.completedChunks ++ [a] }
      refine ⟨?_, ?_, ?_, ?_⟩
      · simp only [resumeLoop, hd, hak, if_true]
        exact ihs.1
      · simp only [resumeLoop, hd, hak, if_true, sentIndices, List.filterMap_cons]
        simp only [sentIndices] at ihs
        simp [ihs.2.1]
      · simp only [resumeLoop, hd, hak, if_true]
        rw [ihs.2.2.1]
        simp
      · simp only [resumeLoop, hd, hak, if_true, savedSessions, List.filterMap_cons]
        simp only [savedSessions] at ihs
        simp [ihs.2.2.2, sessionTrace]

/-- C4: for every persisted session, an all-acknowledged resumeTransfer
sends exactly the indices below totalChunks not in completedChunks, in
increasing order, never re-sending a completed index (under any oracle),
appends them to completedChunks persisting a snapshot after each one,
ends complete, and is an immediately-complete no-op (also twice in a
row) when completedChunks already covers every index. -/
theorem resumeTransfer_spec (s : FileTransferSession)
    (store : Nat → Option (List Nat)) (ackOk : Nat → Bool)
    (hstore : ∀ i, (store i).isSome) (hack : ∀ i, ackOk i = true) :
    sentIndices (resumeTransfer s store ackOk).1 = remainingChunks s ∧
    (∀ i, i ∈ sentIndices (resumeTransfer s store ackOk).1 ↔
      (i < s.totalChunks ∧ i ∉ s.completedChunks)) ∧
    List.Pairwise (· < ·) (sentIndices (resumeTransfer s store ackOk).1) ∧
    (∀ store2 ack2 i, i ∈ sentIndices (resumeTransfer s store2 ack2).1 →
      i ∉ s.completedChunks) ∧
    (resumeTransfer s store ackOk).2.1 =
      { s with completedChunks := s.completedChunks ++ remainingChunks s,
               isComplete := true } ∧
    (resumeTransfer s store ackOk).2.2 = Except.ok () ∧
    savedSessions (resumeTransfer s store ackOk).1 =
      sessionTrace s (remainingChunks s) ∧
    ((∀ i, i < s.totalChunks → i ∈ s.completedChunks) →
      sentIndices (resumeTransfer s store ackOk).1 = [] ∧
      sentIndices (resumeTransfer (resumeTransfer s store ackOk).2.1 store ackOk).1 = [] ∧
      (resumeTransfer (resumeTransfer s store ackOk).2.1 store ackOk).2.2 = Except.ok () ∧
      ((resumeTransfer s store ackOk).2.1).isComplete = true) := by
  have hall := resumeLoop_all_success store ackOk hstore hack (remainingChunks s) s
  have hmemrem : ∀ i, i ∈ remainingChunks s ↔ (i < s.totalChunks ∧ i ∉ s.completedChunks) := by
    intro i
    simp [remainingChunks, List.mem_filter, List.mem_range, List.elem_iff]
  simp only [resumeTransfer]
  refine ⟨hall.2.1, ?_, ?_, ?_, hall.2.2.1, hall.1, hall.2.2.2, ?_⟩
  · intro i
    rw [hall.2.1]
    exact hmemrem i
  · rw [hall.2.1]
    exact (List.pairwise_lt_range s.totalChunks).filter _
  · intro store2 ack2 i hi
    have hrem := resumeLoop_sent_subset store2 ack2 (remainingChunks s) s i hi
    exact ((hmemrem i).mp hrem).2
  · intro hcov
    have hempty : remainingChunks s = [] := by
      rw [List.eq_nil_iff_forall_not_mem]
      intro i hi
      exact ((hmemrem i).mp hi).2 (hcov i ((hmemrem i).mp hi).1)
    have h1 : (resumeLoop store ackOk s (remainingChunks s)).2.1 =
        { s with isComplete := true } := by
      rw [hall.2.2.1, hempty]
      simp
    have hempty2 : remainingChunks { s with isComplete := true } = [] := by
      rw [List.eq_nil_iff_forall_not_mem]
      intro i hi
      have h3 : i ∈ remainingChunks s := by
        simpa [remainingChunks] using hi
      exact ((hmemrem i).mp h3).2 (hcov i ((hmemrem i).mp h3).1)
    refine ⟨by rw [hall.2.1, hempty], ?_, ?_, by rw [h1]⟩
    · rw [h1, hempty2]
      simp [resumeLoop, sentIndices]
    · rw [h1, hempty2]
      simp [resumeLoop]

/-- C4 witness: a three-chunk session with index 1 already completed
resumes by sending exactly indices 0 and 2 and ends complete; a fully
completed session resumes as a no-op. -/
theorem resumeTransfer_spec_witness :
    sentIndices (resumeTransfer
        { fileId := "id", fileName := "f", fileSize := 6, fileType := "t",
          totalChunks := 3, completedChunks := [1], fileHash := "",
          isComplete := false }
        (fun _ => some [7, 8]) (fun _ => true)).1 = [0, 2] ∧
    (resumeTransfer
        { fileId := "id", fileName := "f", fileSize := 6, fileType := "t",
          totalChunks := 3, completedChunks := [1], fileHash := "",
          isComplete := false }
        (fun _ => some [7, 8]) (fun _ => true)).2.2 = Except.ok () ∧
    sentIndices (resumeTransfer
        { fileId := "id", fileName := "f", fileSize := 6, fileType := "t",
          totalChunks := 2, completedChunks := [0, 1], fileHash := "",
          isComplete := false }
        (fun _ => some [7, 8]) (fun _ => true)).1 = [] :=
  ⟨(resumeTransfer_spec
      { fileId := "id", fileName := "f", fileSize := 6, fileType := "t",
        totalChunks := 3, completedChunks := [1], fileHash := "",
        isComplete := false }
      (fun _ => some [7, 8]) (fun _ => true)
      (fun _ => rfl) (fun _ => rfl)).1.trans (by decide),
   (resumeTransfer_spec
      { fileId := "id", fileName := "f", fileSize := 6, fileType := "t",
        totalChunks := 3, completedChunks := [1], fileHash := "",
        isComplete := false }
      (fun _ => some [7, 8]) (fun _ => true)
      (fun _ => rfl) (fun _ => rfl)).2.2.2.2.2.1,
   ((resumeTransfer_spec
      { fileId := "id", fileName := "f", fileSize := 6, fileType := "t",
        totalChunks := 2, completedChunks := [0, 1], fileHash := "",
        isComplete := false }
      (fun _ => some [7, 8]) (fun _ => true)
      (fun _ => rfl) (fun _ => rfl)).2.2.2.2.2.2.2
      (by decide)).1⟩

end ZapDrop
